import Mathlib

/-!
Shallow embedding of the YBS-Ecommerce backend (Django) pieces that the
verified claims are about:

* `core/order/models.py` — `Order.VALID_STATUS_TRANSITIONS`, `Order.clean`,
  `Order.save`, `Order.calculate_total`, `OrderItem.get_total_price`;
* `core/order/serializers.py` — `OrderSerializer.create` / `update`;
* `core/product/models.py` — `Product.convert_price`;
* `core/product/serializers.py` — `ProductSerializer._handle_nested_update`,
  `ProductSerializer.update` (nested-children dispatch) and the DRF
  validation the nested write fields pass through first.

Django `Decimal` amounts are embedded as `ℚ` (decimal arithmetic is exact);
Python `round(d, 2)` on a `Decimal` quantizes to 2 places with the default
context rounding `ROUND_HALF_EVEN`, embedded below as `roundHalfEven2`.
Database rows are embedded as lists of records; primary keys are `Nat`
(Django pks are positive and unique per table, which the theorems take as
hypotheses where needed).
-/

/-! ## Order status machine (`core/order/models.py`) -/

/-- The six members of `Order.STATUS_CHOICES`. -/
inductive OrderStatus where
  | pending
  | confirmed
  | shipped
  | delivered
  | cancelled
  | paid
deriving DecidableEq, Repr, Fintype

open OrderStatus

/-- Source `Order.VALID_STATUS_TRANSITIONS`: the dict literal of `models.py`,
mapping an old status to the list of statuses it may move to. -/
def VALID_STATUS_TRANSITIONS : OrderStatus → List OrderStatus
  | pending => [confirmed, cancelled]
  | confirmed => [shipped, cancelled]
  | shipped => [delivered]
  | delivered => []
  | cancelled => []
  | paid => []

/-- Source `Order.clean`: when the order has a primary key (`persisted = some s`,
`s` the status currently stored for that pk), a requested status different
from the stored one and not in the allowed list raises
`ValidationError(f"Invalid status transition: {old} → {new}")` — embedded as
`Except.error (old, new)`.  Without a pk the body is skipped. -/
def Order.clean (persisted : Option OrderStatus) (status : OrderStatus) :
    Except (OrderStatus × OrderStatus) Unit :=
  match persisted with
  | some old_status =>
      let allowed := VALID_STATUS_TRANSITIONS old_status
      if status ≠ old_status ∧ status ∉ allowed then
        Except.error (old_status, status)
      else
        Except.ok ()
  | none => Except.ok ()

/-- Source `Order.save`: runs `full_clean` (hence `clean`) and only then writes the
row; a `ValidationError` aborts the save, so on error nothing is written.
The result is the stored status after the call: the requested one on
success, carried error on failure. -/
def Order.save (persisted : Option OrderStatus) (status : OrderStatus) :
    Except (OrderStatus × OrderStatus) OrderStatus :=
  match Order.clean persisted status with
  | Except.ok () => Except.ok status
  | Except.error e => Except.error e

/-- Status actually stored after attempting the save: a raised
`ValidationError` leaves the persisted row untouched. -/
def Order.statusAfterSave (s : OrderStatus) (status : OrderStatus) : OrderStatus :=
  match Order.save (some s) status with
  | Except.ok t => t
  | Except.error _ => s

/-! ## Order totals (`core/order/models.py`, `core/order/serializers.py`) -/

/-- Source `OrderItem`: the fields `calculate_total` reads (`quantity` is a
`PositiveIntegerField`, `price` a `DecimalField`). -/
structure OrderItem where
  quantity : Nat
  price : ℚ
deriving DecidableEq, Repr

/-- Source `OrderItem.get_total_price`: `self.quantity * self.price`. -/
def OrderItem.get_total_price (it : OrderItem) : ℚ :=
  it.quantity * it.price

/-- The order fields the totals claims are about. -/
structure OrderState where
  status : OrderStatus
  total_price : ℚ
  items : List OrderItem
deriving DecidableEq, Repr

/-- Source `Order.calculate_total`: sums `get_total_price` over `self.items.all()`,
stores the sum in `total_price` (the `save(update_fields=["total_price"])`
succeeds: the status is unchanged, a no-op transition), and returns it. -/
def Order.calculate_total (o : OrderState) : OrderState × ℚ :=
  let total := (o.items.map OrderItem.get_total_price).sum
  ({ o with total_price := total }, total)

/-- Source `OrderSerializer.create`: creates the order via
`Order.objects.create(user=user, **validated_data)` — `total_price` is not
in the serializer's writable fields, so the model default `0.00` is stored —
then creates one `OrderItem` row per submitted item with the product's
current price.  `calculate_total` is never invoked. -/
def OrderSerializer.create (items_data : List (Nat × ℚ)) : OrderState :=
  let order : OrderState := { status := pending, total_price := 0, items := [] }
  { order with items := items_data.map (fun it => { quantity := it.1, price := it.2 }) }

/-! ## Currency conversion (`core/product/models.py`) -/

/-- Source `Product.CURRENCY_CHOICES`. -/
inductive Currency where
  | ETB
  | USD
  | AED
deriving DecidableEq, Repr

/-- Round-half-to-even to an integer, the `ROUND_HALF_EVEN` rounding used by
Python `decimal` as its default context rounding. -/
def roundHalfEvenInt (q : ℚ) : ℤ :=
  let f : ℤ := ⌊q⌋
  let r : ℚ := q - f
  if r < 1/2 then f
  else if 1/2 < r then f + 1
  else if f % 2 = 0 then f else f + 1

/-- Python `round(d, 2)` on a `Decimal`: quantize to 2 decimal places with
round-half-to-even. -/
def roundHalfEven2 (q : ℚ) : ℚ :=
  (roundHalfEvenInt (q * 100) : ℚ) / 100

/-- Source `Product.convert_price`.  The rate source
`core.utils.currency.fetch_live_exchange_rate` is outside the model code;
it is passed in as the function `fetchRate`, applied to the target currency
exactly where the source calls it.  The source returns `self.price`
unchanged when the currency matches or the price is falsy (zero), returns
it unchanged when the fetched rate is the sentinel `Decimal("1.0")`, and
otherwise returns `round(self.price * exchange_rate, 2)`. -/
def Product.convert_price (price : ℚ) (currency : Currency)
    (fetchRate : Currency → ℚ) (target_currency : Currency) : ℚ :=
  if currency = target_currency ∨ price = 0 then price
  else
    let exchange_rate := fetchRate target_currency
    if exchange_rate = 1 then price
    else roundHalfEven2 (price * exchange_rate)

/-! ## Nested-children reconciler (`core/product/serializers.py`)

Source `ProductSerializer._handle_nested_update` runs the same algorithm
twice, once over `variant_images` rows driven by the submitted
`images_data` and once over `variants` rows driven by `variants_data`:
snapshot the existing rows keyed by id, then for each submitted record
update-and-retain on a (truthy) id hit, create a row otherwise, and finally
delete every snapshot row whose id was not retained.  The algorithm is
embedded once, parametrised by the row type `C`, the submitted-record type
`D`, the id projections and the two row constructors the loop body uses,
and instantiated below for images with exactly the field assignments of
the source.  The variant half cannot be an instance of it: the loop body
addresses `option_name` / `option_value` / `stock`, but the
`ProductVariant` model's columns are `size` / `color` / `material`, so its
update branch persists nothing and its create branch raises `TypeError`;
that half is embedded separately below, at the persistence level, together
with the `ImproperlyConfigured` failure DRF raises when a non-empty
`variant_data` list is validated. -/

section Reconciler

variable {C D : Type}
variable (cid : C → Nat) (did : D → Option Nat) (upd : D → C → C) (mk : Nat → D → C)

/-- One iteration of the `for ... in ...data` loop of
`_handle_nested_update`.  State: current rows of the child table, the
`received_..._ids` list, and the next auto-assigned primary key.  The
Python guard is `if image_id and image_id in existing_images`: a missing id
(`None`) or `0` is falsy, so both fall to the create branch; a create
passes `**data` through, so an explicit unmatched id is kept and only an
absent id draws the auto key. -/
def reconcileStep (snap : List Nat) (st : List C × List Nat × Nat) (d : D) :
    List C × List Nat × Nat :=
  match did d with
  | some i =>
      if i ≠ 0 ∧ i ∈ snap then
        (st.1.map (fun c => if cid c = i then upd d c else c), st.2.1 ++ [i], st.2.2)
      else
        (st.1 ++ [mk i d], st.2.1, st.2.2)
  | none => (st.1 ++ [mk st.2.2 d], st.2.1, st.2.2 + 1)

/-- Source `_handle_nested_update`, one child kind: snapshot
`existing_... = {x.id: x for x in ...all()}`, run the loop, then delete the
snapshot rows whose id is not in the received list (rows created during the
loop are not in the snapshot, so only snapshot ids can be deleted; the
filter keys deletion by id, which coincides with the source's
delete-by-object because ids are unique in the table). -/
def handle_nested_update (fresh : Nat) (db : List C) (subs : List D) : List C :=
  let snap := db.map cid
  let st := subs.foldl (reconcileStep cid did upd mk snap) (db, [], fresh)
  st.1.filter (fun c => decide (cid c ∉ snap ∨ cid c ∈ st.2.1))

/-- Spec-side definition (for the refinement theorems): the cumulative effect on one persisted child of
the submitted records that carry its identifier — each matching record
updates the mutable fields in place, later records overwriting earlier
ones. -/
def applySubmission (subs : List D) (c : C) : C :=
  subs.foldl (fun acc d => if did d = some (cid acc) then upd d acc else acc) c

/-- Spec-side definition (for the refinement theorems): the persisted children whose identifier matches
some submitted record are retained, updated in place; the rest are
deleted. -/
def keptChildren (db : List C) (subs : List D) : List C :=
  (db.filter (fun c => decide (∃ d ∈ subs, did d = some (cid c)))).map
    (applySubmission cid did upd subs)

/-- Spec-side definition (for the refinement theorems): one new child is created for each submitted
record with no identifier (drawing a fresh auto key) or an unmatched
identifier (kept as given). -/
def createdChildren (snap : List Nat) : Nat → List D → List C
  | _, [] => []
  | fresh, d :: rest =>
      match did d with
      | some i =>
          if i ≠ 0 ∧ i ∈ snap then createdChildren snap fresh rest
          else mk i d :: createdChildren snap fresh rest
      | none => mk fresh d :: createdChildren snap (fresh + 1) rest

/-- Identifiers marked "retained" by a run of the loop, in order. -/
def matchedIds (snap : List Nat) (subs : List D) : List Nat :=
  subs.filterMap (fun d =>
    match did d with
    | some i => if i ≠ 0 ∧ i ∈ snap then some i else none
    | none => none)

/-- Number of submitted records that draw an auto-assigned key. -/
def autoKeyCount (subs : List D) : Nat :=
  (subs.filter (fun d => decide (did d = none))).length

end Reconciler

/-- Source `ProductImage` row: fields `id`, `image` (a file reference) and
`uploaded_at` (set once at creation, `auto_now_add`; it stands here for
every persisted field the reconciler must not touch on update). -/
structure ProductImage where
  id : Nat
  image : String
  uploaded_at : Nat
deriving DecidableEq, Repr

/-- Source `ProductImageNestedSerializer` validated record: optional `id`
for update matching, plus the submitted `image` reference. -/
structure ImageData where
  id : Option Nat
  image : String
deriving DecidableEq, Repr

/-- Source update branch for images:
`img_obj.image = image_data.get('image', img_obj.image); img_obj.save()` —
only the image reference changes. -/
def updImage (d : ImageData) (c : ProductImage) : ProductImage :=
  { c with image := d.image }

/-- Source create branch for images:
`ProductImage.objects.create(product=product, **image_data)`; `now` is the
`auto_now_add` timestamp of the new row. -/
def mkImage (now : Nat) (i : Nat) (d : ImageData) : ProductImage :=
  { id := i, image := d.image, uploaded_at := now }

/-- Source `ProductVariant` row (`core/product/models.py`): the model's
columns are `id`, `size`, `color`, `material`, each nullable.  The model
has no `option_name`, `option_value` or `stock` column. -/
structure ProductVariant where
  id : Nat
  size : Option String
  color : Option String
  material : Option String
deriving DecidableEq, Repr

/-- Raw record of a submitted `variant_data` JSON list, with the keys
`ProductVariantSerializer` declares (`id`, `option_name`, `option_value`,
`stock`).  No such record ever exists as validated data: those names are
not fields of the `ProductVariant` model, so DRF raises
`ImproperlyConfigured` while building the serializer's fields, which
happens as soon as the first record of a non-empty list is validated. -/
structure VariantData where
  id : Option Nat
  option_name : String
  option_value : String
  stock : Nat
deriving DecidableEq, Repr

/-- Errors the product-serializer paths can raise before or instead of
persisting: DRF's `ImproperlyConfigured` (serializer fields name columns
the model lacks) and Python's `TypeError` (invalid keyword arguments for a
model constructor). -/
inductive SerializerError where
  | improperlyConfigured
  | typeError
deriving DecidableEq, Repr

/-- Source `_handle_nested_update`, the `--- VARIANT IMAGES ---` half. -/
def handle_nested_update_images (now fresh : Nat) (db : List ProductImage)
    (subs : List ImageData) : List ProductImage :=
  handle_nested_update ProductImage.id ImageData.id updImage (mkImage now) fresh db subs

/-- Source `--- VARIANTS ---` loop body of `_handle_nested_update`, at the
persistence level.  On a truthy id found in the snapshot, the branch
assigns `option_name`, `option_value` and `stock` on the fetched object
and calls `var_obj.save()` — but none of these is a model column, so the
save writes no change: the stored row stays as it is, and its id is
appended to `received_variant_ids`.  Otherwise
`ProductVariant.objects.create(product=product, **variant_data)` passes
keyword arguments the model does not accept and raises `TypeError`. -/
def variantLoopStep (snap : List Nat) (st : List ProductVariant × List Nat)
    (d : VariantData) : Except SerializerError (List ProductVariant × List Nat) :=
  match d.id with
  | some i =>
      if i ≠ 0 ∧ i ∈ snap then Except.ok (st.1, st.2 ++ [i])
      else Except.error SerializerError.typeError
  | none => Except.error SerializerError.typeError

/-- Source `for variant_data in variants_data` loop: `variantLoopStep` per
record, a raised exception aborting the remainder. -/
def variantLoop (snap : List Nat) :
    List ProductVariant × List Nat → List VariantData →
      Except SerializerError (List ProductVariant × List Nat)
  | st, [] => Except.ok st
  | st, d :: rest =>
      match variantLoopStep snap st d with
      | Except.ok st' => variantLoop snap st' rest
      | Except.error e => Except.error e

/-- Source `_handle_nested_update`, the `--- VARIANTS ---` half: snapshot
the existing rows, run the loop (`variantLoop`), then delete every
snapshot row whose id was not retained.  (On the `TypeError` paths —
unreachable through `partial_update`, whose validation raises first — the
source has already persisted the image half before dying; the embedding
returns just the error.) -/
def handle_nested_update_variants (db : List ProductVariant)
    (subs : List VariantData) : Except SerializerError (List ProductVariant) :=
  let snap := db.map ProductVariant.id
  match variantLoop snap (db, ([] : List Nat)) subs with
  | Except.ok st =>
      Except.ok (st.1.filter (fun c => decide (c.id ∉ snap ∨ c.id ∈ st.2)))
  | Except.error e => Except.error e

/-- Child collections of one product, as touched by
`ProductSerializer.update`. -/
structure ProductChildren where
  variant_images : List ProductImage
  variants : List ProductVariant
deriving DecidableEq, Repr

/-- Source `ProductSerializer.update`, nested-children dispatch:
`variant_images` / `variant_data` are popped with default `None` (absent
field); if `variant_images_data is not None` both kinds are reconciled with
`variant_data or []` for the variants; elif `variant_data is not None` the
variants are reconciled together with an empty image submission; else
nothing is touched. -/
def ProductSerializer.update (now freshImg : Nat)
    (variant_images_data : Option (List ImageData))
    (variant_data : Option (List VariantData))
    (s : ProductChildren) : Except SerializerError ProductChildren :=
  match variant_images_data with
  | some images_data =>
      match handle_nested_update_variants s.variants (variant_data.getD []) with
      | Except.ok vars' =>
          Except.ok
            { variant_images :=
                handle_nested_update_images now freshImg s.variant_images images_data,
              variants := vars' }
      | Except.error e => Except.error e
  | none =>
      match variant_data with
      | some variants_data =>
          match handle_nested_update_variants s.variants variants_data with
          | Except.ok vars' =>
              Except.ok
                { variant_images :=
                    handle_nested_update_images now freshImg s.variant_images [],
                  variants := vars' }
          | Except.error e => Except.error e
      | none => Except.ok s

/-- Source: DRF validation of the nested write fields of a
`ProductSerializer` payload.  `variant_images` records validate against
`ProductImageNestedSerializer`, whose `id` and `image` fields exist on the
`ProductImage` model, so they build and validate.  Validating the first
record of a non-empty `variant_data` list builds
`ProductVariantSerializer`'s fields, whose `Meta.fields` name columns the
`ProductVariant` model does not have, and raises `ImproperlyConfigured`.
An empty list builds no child fields and passes; an absent field is not
validated (`required=False`). -/
def ProductSerializer.run_validation (imgs : Option (List ImageData))
    (vars : Option (List VariantData)) :
    Except SerializerError (Option (List ImageData) × Option (List VariantData)) :=
  match vars with
  | some (_ :: _) => Except.error SerializerError.improperlyConfigured
  | _ => Except.ok (imgs, vars)

/-- Source path a PATCH request takes through the product viewset:
`serializer.is_valid()` (hence `run_validation` of every present field)
and only then `serializer.save()` → `ProductSerializer.update`.  A
validation error aborts the request before anything is persisted. -/
def ProductSerializer.partial_update (now freshImg : Nat)
    (variant_images_data : Option (List ImageData))
    (variant_data : Option (List VariantData))
    (s : ProductChildren) : Except SerializerError ProductChildren :=
  match ProductSerializer.run_validation variant_images_data variant_data with
  | Except.ok (imgs, vars) => ProductSerializer.update now freshImg imgs vars s
  | Except.error e => Except.error e

/-! ## Generic reconciler lemmas -/

section ReconcilerLemmas

variable {C D : Type}
variable (cid : C → Nat) (did : D → Option Nat) (upd : D → C → C) (mk : Nat → D → C)

theorem applySubmission_nil (c : C) : applySubmission cid did upd [] c = c := rfl

theorem applySubmission_cons (d : D) (subs : List D) (c : C) :
    applySubmission cid did upd (d :: subs) c =
      applySubmission cid did upd subs (if did d = some (cid c) then upd d c else c) := rfl

theorem applySubmission_cid (hupd : ∀ d c, cid (upd d c) = cid c) :
    ∀ (subs : List D) (c : C), cid (applySubmission cid did upd subs c) = cid c := by
  intro subs
  induction subs with
  | nil => intro c; rfl
  | cons d rest ih =>
      intro c
      rw [applySubmission_cons]
      by_cases h : did d = some (cid c)
      · rw [if_pos h, ih, hupd]
      · rw [if_neg h, ih]

theorem mem_matchedIds (snap : List Nat) (subs : List D) (i : Nat) :
    i ∈ matchedIds did snap subs ↔
      ∃ d ∈ subs, did d = some i ∧ i ≠ 0 ∧ i ∈ snap := by
  unfold matchedIds
  rw [List.mem_filterMap]
  constructor
  · rintro ⟨d, hd, hf⟩
    refine ⟨d, hd, ?_⟩
    rcases h : did d with _ | j
    · rw [h] at hf; exact absurd hf (by simp)
    · rw [h] at hf
      by_cases hc : j ≠ 0 ∧ j ∈ snap
      · simp only [if_pos hc] at hf
        obtain rfl : j = i := by simpa using hf
        exact ⟨rfl, hc⟩
      · simp only [if_neg hc] at hf
        exact absurd hf (by simp)
  · rintro ⟨d, hd, hdi, hc⟩
    refine ⟨d, hd, ?_⟩
    rw [hdi]
    simp only [if_pos hc]

theorem createdChildren_cid_not_mem (hmk : ∀ i d, cid (mk i d) = i)
    (snap : List Nat) (hz : (0 : Nat) ∉ snap) :
    ∀ (subs : List D) (fresh : Nat), (∀ j ∈ snap, j < fresh) →
      ∀ x ∈ createdChildren did mk snap fresh subs, cid x ∉ snap := by
  intro subs
  induction subs with
  | nil => intro fresh _ x hx; simp [createdChildren] at hx
  | cons d rest ih =>
      intro fresh hfresh x hx
      rcases h : did d with _ | i
      · rw [createdChildren, h] at hx
        rcases List.mem_cons.mp hx with rfl | hx
        · rw [hmk]
          intro hmem
          exact absurd (hfresh _ hmem) (lt_irrefl fresh)
        · exact ih (fresh + 1) (fun j hj => Nat.lt_succ_of_lt (hfresh j hj)) x hx
      · rw [createdChildren, h] at hx
        by_cases hc : i ≠ 0 ∧ i ∈ snap
        · simp only [if_pos hc] at hx
          exact ih fresh hfresh x hx
        · simp only [if_neg hc] at hx
          rcases List.mem_cons.mp hx with rfl | hx
          · rw [hmk]
            rcases Decidable.not_and_iff_or_not.mp hc with h0 | hns
            · rw [Decidable.not_not.mp h0]; exact hz
            · exact hns
          · exact ih fresh hfresh x hx

theorem reconcile_foldl (hupd : ∀ d c, cid (upd d c) = cid c)
    (hmk : ∀ i d, cid (mk i d) = i)
    (snap : List Nat) (hz : (0 : Nat) ∉ snap) :
    ∀ (subs : List D) (orig cre : List C) (recv : List Nat) (fresh : Nat),
      (∀ c ∈ orig, cid c ∈ snap) →
      (∀ c ∈ cre, cid c ∉ snap) →
      (∀ j ∈ snap, j < fresh) →
      subs.foldl (reconcileStep cid did upd mk snap) (orig ++ cre, recv, fresh) =
        (orig.map (applySubmission cid did upd subs) ++ cre ++
           createdChildren did mk snap fresh subs,
         recv ++ matchedIds did snap subs,
         fresh + autoKeyCount did subs) := by
  intro subs
  induction subs with
  | nil =>
      intro orig cre recv fresh _ _ _
      have hid : applySubmission cid did upd ([] : List D) = id := funext fun c => rfl
      simp [hid, createdChildren, matchedIds, autoKeyCount]
  | cons d rest ih =>
      intro orig cre recv fresh horig hcre hfresh
      rw [List.foldl_cons]
      rcases h : did d with _ | i
      · -- no submitted id: create a row with the next auto key
        have hstep : reconcileStep cid did upd mk snap (orig ++ cre, recv, fresh) d =
            ((orig ++ cre) ++ [mk fresh d], recv, fresh + 1) := by
          unfold reconcileStep; rw [h]
        rw [hstep, List.append_assoc]
        have hfr : fresh ∉ snap := fun hmem => absurd (hfresh _ hmem) (lt_irrefl fresh)
        have hcre' : ∀ c ∈ cre ++ [mk fresh d], cid c ∉ snap := by
          intro c hc
          rcases List.mem_append.mp hc with hc | hc
          · exact hcre c hc
          · obtain rfl : c = mk fresh d := by simpa using hc
            rw [hmk]; exact hfr
        have := ih orig (cre ++ [mk fresh d]) recv (fresh + 1) horig hcre'
          (fun j hj => Nat.lt_succ_of_lt (hfresh j hj))
        rw [this]
        have hmap : orig.map (applySubmission cid did upd rest) =
            orig.map (applySubmission cid did upd (d :: rest)) := by
          apply List.map_congr_left
          intro c _
          rw [applySubmission_cons, h]
          simp
        have hcreated : createdChildren did mk snap fresh (d :: rest) =
            mk fresh d :: createdChildren did mk snap (fresh + 1) rest := by
          rw [createdChildren, h]
        have hmatched : matchedIds did snap (d :: rest) = matchedIds did snap rest := by
          unfold matchedIds
          rw [List.filterMap_cons, h]
        have hauto : autoKeyCount did (d :: rest) = autoKeyCount did rest + 1 := by
          unfold autoKeyCount
          rw [List.filter_cons]
          simp [h]
        rw [hmap, hcreated, hmatched, hauto]
        refine Prod.ext ?_ (Prod.ext ?_ ?_)
        · simp [List.append_assoc]
        · simp
        · simp
          omega
      · by_cases hc : i ≠ 0 ∧ i ∈ snap
        · -- truthy id found in the snapshot: update in place and retain
          have hstep : reconcileStep cid did upd mk snap (orig ++ cre, recv, fresh) d =
              ((orig ++ cre).map (fun c => if cid c = i then upd d c else c),
               recv ++ [i], fresh) := by
            unfold reconcileStep; rw [h]; simp only [if_pos hc]
          rw [hstep, List.map_append]
          have hcrem : cre.map (fun c => if cid c = i then upd d c else c) = cre := by
            rw [show cre.map (fun c => if cid c = i then upd d c else c) = cre.map id by
              apply List.map_congr_left
              intro c hcm
              have : cid c ≠ i := fun hEq => hcre c hcm (hEq ▸ hc.2)
              simp [this]]
            exact List.map_id cre
          rw [hcrem]
          have horig' : ∀ c ∈ orig.map (fun c => if cid c = i then upd d c else c),
              cid c ∈ snap := by
            intro c hcm
            obtain ⟨c₀, hc₀, rfl⟩ := List.mem_map.mp hcm
            by_cases hEq : cid c₀ = i
            · simp only [if_pos hEq, hupd]; exact horig c₀ hc₀
            · simp only [if_neg hEq]; exact horig c₀ hc₀
          have := ih (orig.map (fun c => if cid c = i then upd d c else c)) cre
            (recv ++ [i]) fresh horig' hcre hfresh
          rw [this, List.map_map]
          have hmap : orig.map
              ((applySubmission cid did upd rest) ∘ (fun c => if cid c = i then upd d c else c)) =
              orig.map (applySubmission cid did upd (d :: rest)) := by
            apply List.map_congr_left
            intro c _
            rw [Function.comp_apply, applySubmission_cons, h]
            by_cases hEq : cid c = i
            · simp [hEq]
            · have : some i ≠ some (cid c) := by simpa using fun hEq2 => hEq hEq2.symm
              simp [hEq, this]
          have hcreated : createdChildren did mk snap fresh (d :: rest) =
              createdChildren did mk snap fresh rest := by
            rw [createdChildren, h]; simp only [if_pos hc]
          have hmatched : matchedIds did snap (d :: rest) = i :: matchedIds did snap rest := by
            unfold matchedIds
            rw [List.filterMap_cons, h]
            simp only [if_pos hc]
          have hauto : autoKeyCount did (d :: rest) = autoKeyCount did rest := by
            unfold autoKeyCount
            rw [List.filter_cons]
            simp [h]
          rw [hmap, hcreated, hmatched, hauto]
          refine Prod.ext ?_ (Prod.ext ?_ ?_) <;> simp [List.append_assoc]
        · -- falsy or unmatched id: create a row carrying the submitted id
          have hstep : reconcileStep cid did upd mk snap (orig ++ cre, recv, fresh) d =
              ((orig ++ cre) ++ [mk i d], recv, fresh) := by
            unfold reconcileStep; rw [h]; simp only [if_neg hc]
          rw [hstep, List.append_assoc]
          have hnotin : i ∉ snap := by
            rcases Decidable.not_and_iff_or_not.mp hc with h0 | hns
            · rw [Decidable.not_not.mp h0]; exact hz
            · exact hns
          have hcre' : ∀ c ∈ cre ++ [mk i d], cid c ∉ snap := by
            intro c hcm
            rcases List.mem_append.mp hcm with hcm | hcm
            · exact hcre c hcm
            · obtain rfl : c = mk i d := by simpa using hcm
              rw [hmk]; exact hnotin
          have := ih orig (cre ++ [mk i d]) recv fresh horig hcre' hfresh
          rw [this]
          have hmap : orig.map (applySubmission cid did upd rest) =
              orig.map (applySubmission cid did upd (d :: rest)) := by
            apply List.map_congr_left
            intro c hcm
            rw [applySubmission_cons, h]
            have : some i ≠ some (cid c) := by
              simp only [ne_eq, Option.some.injEq]
              intro hEq
              exact hnotin (hEq ▸ horig c hcm)
            simp [this]
          have hcreated : createdChildren did mk snap fresh (d :: rest) =
              mk i d :: createdChildren did mk snap fresh rest := by
            rw [createdChildren, h]; simp only [if_neg hc]
          have hmatched : matchedIds did snap (d :: rest) = matchedIds did snap rest := by
            unfold matchedIds
            rw [List.filterMap_cons, h]
            simp only [if_neg hc]
          have hauto : autoKeyCount did (d :: rest) = autoKeyCount did rest := by
            unfold autoKeyCount
            rw [List.filter_cons]
            simp [h]
          rw [hmap, hcreated, hmatched, hauto]
          refine Prod.ext ?_ (Prod.ext ?_ ?_) <;> simp [List.append_assoc]

theorem handle_nested_update_eq (hupd : ∀ d c, cid (upd d c) = cid c)
    (hmk : ∀ i d, cid (mk i d) = i)
    (fresh : Nat) (db : List C) (subs : List D)
    (h0 : ∀ c ∈ db, cid c ≠ 0) (hf : ∀ c ∈ db, cid c < fresh) :
    handle_nested_update cid did upd mk fresh db subs =
      keptChildren cid did upd db subs ++
        createdChildren did mk (db.map cid) fresh subs := by
  unfold handle_nested_update
  have hz : (0 : Nat) ∉ db.map cid := by
    rw [List.mem_map]
    rintro ⟨c, hc, hc0⟩
    exact h0 c hc hc0
  have horig : ∀ c ∈ db, cid c ∈ db.map cid := fun c hc => List.mem_map_of_mem cid hc
  have hflt : ∀ j ∈ db.map cid, j < fresh := by
    intro j hj
    obtain ⟨c, hc, rfl⟩ := List.mem_map.mp hj
    exact hf c hc
  have hmain := reconcile_foldl cid did upd mk hupd hmk (db.map cid) hz subs db [] []
    fresh horig (by simp) hflt
  simp only [List.append_nil, List.nil_append] at hmain
  dsimp only
  rw [hmain]
  rw [List.filter_append]
  have hcreated : (createdChildren did mk (db.map cid) fresh subs).filter
      (fun c => decide (cid c ∉ db.map cid ∨ cid c ∈ matchedIds did (db.map cid) subs)) =
      createdChildren did mk (db.map cid) fresh subs := by
    apply List.filter_eq_self.mpr
    intro x hx
    exact decide_eq_true
      (Or.inl (createdChildren_cid_not_mem cid did mk hmk (db.map cid) hz subs fresh hflt x hx))
  rw [hcreated]
  congr 1
  rw [List.filter_map]
  unfold keptChildren
  congr 1
  apply List.filter_congr
  intro c hc
  simp only [Function.comp_apply]
  apply decide_eq_decide.mpr
  rw [applySubmission_cid cid did upd hupd]
  constructor
  · rintro (hno | hm)
    · exact absurd (horig c hc) hno
    · obtain ⟨d, hd, hdi, _⟩ := (mem_matchedIds did (db.map cid) subs _).mp hm
      exact ⟨d, hd, hdi⟩
  · rintro ⟨d, hd, hdi⟩
    exact Or.inr ((mem_matchedIds did (db.map cid) subs _).mpr
      ⟨d, hd, hdi, h0 c hc, horig c hc⟩)

theorem handle_nested_update_nil_subs (fresh : Nat) (db : List C) :
    handle_nested_update cid did upd mk fresh db [] = [] := by
  unfold handle_nested_update
  dsimp only [List.foldl_nil]
  apply List.filter_eq_nil_iff.mpr
  intro c hc
  simp [List.mem_map_of_mem cid hc]

/-- Last submitted record carrying the identifier `i`, if any: the one whose
field values survive in the updated row. -/
def lastMatch (i : Nat) : List D → Option D
  | [] => none
  | d :: rest =>
      match lastMatch i rest with
      | some d' => some d'
      | none => if did d = some i then some d else none

theorem lastMatch_eq_none (i : Nat) :
    ∀ subs : List D, (∀ x ∈ subs, did x ≠ some i) → lastMatch did i subs = none := by
  intro subs
  induction subs with
  | nil => intro _; rfl
  | cons d rest ih =>
      intro h
      rw [lastMatch, ih (fun x hx => h x (List.mem_cons_of_mem d hx))]
      simp [h d (List.mem_cons_self d rest)]

theorem lastMatch_of_nodup (i : Nat) (d : D) :
    ∀ subs : List D, (subs.filterMap did).Nodup → d ∈ subs → did d = some i →
      lastMatch did i subs = some d := by
  intro subs
  induction subs with
  | nil => intro _ h; simp at h
  | cons d' rest ih =>
      intro hnd hmem hdi
      rcases hd' : did d' with _ | j
      · rw [List.filterMap_cons, hd'] at hnd
        rcases List.mem_cons.mp hmem with rfl | hmem
        · exact absurd hdi (by rw [hd']; simp)
        · rw [lastMatch, ih hnd hmem hdi]
      · rw [List.filterMap_cons, hd'] at hnd
        have hj : j ∉ rest.filterMap did := (List.nodup_cons.mp hnd).1
        have hndr : (rest.filterMap did).Nodup := (List.nodup_cons.mp hnd).2
        rcases List.mem_cons.mp hmem with rfl | hmem
        · have hji : j = i := by rw [hd'] at hdi; simpa using hdi
          subst hji
          have hnone : lastMatch did j rest = none := by
            apply lastMatch_eq_none
            intro x hx hxi
            exact hj (List.mem_filterMap.mpr ⟨x, hx, hxi⟩)
          rw [lastMatch, hnone]
          simp [hdi]
        · rw [lastMatch, ih hndr hmem hdi]

theorem applySubmission_eq_lastMatch (hupd : ∀ d c, cid (upd d c) = cid c)
    (hover : ∀ (d d' : D) (c : C), upd d (upd d' c) = upd d c) :
    ∀ (subs : List D) (c : C),
      applySubmission cid did upd subs c =
        match lastMatch did (cid c) subs with
        | some d => upd d c
        | none => c := by
  intro subs
  induction subs with
  | nil => intro c; rfl
  | cons d rest ih =>
      intro c
      rw [applySubmission_cons]
      by_cases hd : did d = some (cid c)
      · rw [if_pos hd, ih (upd d c), hupd, lastMatch]
        rcases hlm : lastMatch did (cid c) rest with _ | d'
        · simp [hd]
        · simp [hover]
      · rw [if_neg hd, ih c, lastMatch]
        rcases hlm : lastMatch did (cid c) rest with _ | d'
        · simp [hd]
        · rfl

theorem applySubmission_of_lastMatch_none (hupd : ∀ d c, cid (upd d c) = cid c)
    (hover : ∀ (d d' : D) (c : C), upd d (upd d' c) = upd d c)
    (subs : List D) (c : C) (h : lastMatch did (cid c) subs = none) :
    applySubmission cid did upd subs c = c := by
  rw [applySubmission_eq_lastMatch cid did upd hupd hover subs c, h]

theorem applySubmission_of_lastMatch_some (hupd : ∀ d c, cid (upd d c) = cid c)
    (hover : ∀ (d d' : D) (c : C), upd d (upd d' c) = upd d c)
    (subs : List D) (c : C) (d : D) (h : lastMatch did (cid c) subs = some d) :
    applySubmission cid did upd subs c = upd d c := by
  rw [applySubmission_eq_lastMatch cid did upd hupd hover subs c, h]

theorem applySubmission_idem (hupd : ∀ d c, cid (upd d c) = cid c)
    (hover : ∀ (d d' : D) (c : C), upd d (upd d' c) = upd d c)
    (subs : List D) (c : C) :
    applySubmission cid did upd subs (applySubmission cid did upd subs c) =
      applySubmission cid did upd subs c := by
  rcases hlm : lastMatch did (cid c) subs with _ | d
  · rw [applySubmission_of_lastMatch_none cid did upd hupd hover subs c hlm,
      applySubmission_of_lastMatch_none cid did upd hupd hover subs c hlm]
  · rw [applySubmission_of_lastMatch_some cid did upd hupd hover subs c d hlm]
    have hlm' : lastMatch did (cid (upd d c)) subs = some d := by rw [hupd]; exact hlm
    rw [applySubmission_of_lastMatch_some cid did upd hupd hover subs (upd d c) d hlm',
      hover]

theorem createdChildren_nil_of_matched (snap : List Nat) :
    ∀ subs : List D, (∀ d ∈ subs, ∃ i, did d = some i ∧ i ≠ 0 ∧ i ∈ snap) →
      ∀ fresh, createdChildren did mk snap fresh subs = [] := by
  intro subs
  induction subs with
  | nil => intro _ fresh; rfl
  | cons d rest ih =>
      intro h fresh
      obtain ⟨i, hdi, hc⟩ := h d (List.mem_cons_self d rest)
      rw [createdChildren, hdi]
      simp only [if_pos hc]
      exact ih (fun d' hd' => h d' (List.mem_cons_of_mem d hd')) fresh

theorem createdChildren_shape (snap : List Nat) :
    ∀ (subs : List D) (fresh : Nat), (∀ d ∈ subs, did d ≠ none) →
      ∀ x ∈ createdChildren did mk snap fresh subs,
        ∃ d ∈ subs, ∃ i, did d = some i ∧ x = mk i d := by
  intro subs
  induction subs with
  | nil => intro fresh _ x hx; simp [createdChildren] at hx
  | cons d rest ih =>
      intro fresh hnone x hx
      rcases hd : did d with _ | i
      · exact absurd hd (hnone d (List.mem_cons_self d rest))
      · rw [createdChildren, hd] at hx
        by_cases hc : i ≠ 0 ∧ i ∈ snap
        · simp only [if_pos hc] at hx
          obtain ⟨d', hd', hsh⟩ :=
            ih fresh (fun d' h => hnone d' (List.mem_cons_of_mem d h)) x hx
          exact ⟨d', List.mem_cons_of_mem d hd', hsh⟩
        · simp only [if_neg hc] at hx
          rcases List.mem_cons.mp hx with rfl | hx
          · exact ⟨d, List.mem_cons_self d rest, i, hd, rfl⟩
          · obtain ⟨d', hd', hsh⟩ :=
              ih fresh (fun d' h => hnone d' (List.mem_cons_of_mem d h)) x hx
            exact ⟨d', List.mem_cons_of_mem d hd', hsh⟩

theorem createdChildren_mem_of_unmatched (hmk : ∀ i d, cid (mk i d) = i)
    (snap : List Nat) (d : D) (i : Nat) :
    ∀ (subs : List D) (fresh : Nat), d ∈ subs → did d = some i →
      ¬(i ≠ 0 ∧ i ∈ snap) →
      ∃ x ∈ createdChildren did mk snap fresh subs, cid x = i := by
  intro subs
  induction subs with
  | nil => intro fresh h; simp at h
  | cons d' rest ih =>
      intro fresh hmem hdi hc
      rcases List.mem_cons.mp hmem with rfl | hmem
      · rw [createdChildren, hdi]
        simp only [if_neg hc]
        exact ⟨mk i d, List.mem_cons_self _ _, by rw [hmk]⟩
      · rcases hd' : did d' with _ | j
        · rw [createdChildren, hd']
          obtain ⟨x, hx, hxi⟩ := ih (fresh + 1) hmem hdi hc
          exact ⟨x, List.mem_cons_of_mem _ hx, hxi⟩
        · rw [createdChildren, hd']
          by_cases hc' : j ≠ 0 ∧ j ∈ snap
          · simp only [if_pos hc']
            exact ih fresh hmem hdi hc
          · simp only [if_neg hc']
            obtain ⟨x, hx, hxi⟩ := ih fresh hmem hdi hc
            exact ⟨x, List.mem_cons_of_mem _ hx, hxi⟩

theorem handle_nested_update_idem
    (hupd : ∀ d c, cid (upd d c) = cid c)
    (hmk : ∀ i d, cid (mk i d) = i)
    (hover : ∀ (d d' : D) (c : C), upd d (upd d' c) = upd d c)
    (hmkupd : ∀ i d, upd d (mk i d) = mk i d)
    (fresh₁ fresh₂ : Nat) (db : List C) (subs : List D)
    (h0 : ∀ c ∈ db, cid c ≠ 0) (hf : ∀ c ∈ db, cid c < fresh₁)
    (hsub : ∀ d ∈ subs, ∃ i, did d = some i ∧ i ≠ 0)
    (hnd : (subs.filterMap did).Nodup)
    (hf₂ : ∀ c ∈ handle_nested_update cid did upd mk fresh₁ db subs, cid c < fresh₂) :
    handle_nested_update cid did upd mk fresh₂
        (handle_nested_update cid did upd mk fresh₁ db subs) subs =
      handle_nested_update cid did upd mk fresh₁ db subs := by
  set R := handle_nested_update cid did upd mk fresh₁ db subs with hRdef
  have hR : R = keptChildren cid did upd db subs ++
      createdChildren did mk (db.map cid) fresh₁ subs := by
    rw [hRdef]
    exact handle_nested_update_eq cid did upd mk hupd hmk fresh₁ db subs h0 hf
  have hnone : ∀ d ∈ subs, did d ≠ none := by
    intro d hd hcontra
    obtain ⟨i, hdi, _⟩ := hsub d hd
    rw [hcontra] at hdi
    exact Option.noConfusion hdi
  have hkept_shape : ∀ r ∈ keptChildren cid did upd db subs,
      ∃ c₀ ∈ db, (∃ d ∈ subs, did d = some (cid c₀)) ∧
        r = applySubmission cid did upd subs c₀ := by
    intro r hr
    unfold keptChildren at hr
    obtain ⟨c₀, hc₀, rfl⟩ := List.mem_map.mp hr
    obtain ⟨hc₀db, hq⟩ := List.mem_filter.mp hc₀
    exact ⟨c₀, hc₀db, of_decide_eq_true hq, rfl⟩
  have hRexists : ∀ r ∈ R, ∃ d ∈ subs, did d = some (cid r) := by
    intro r hr
    rw [hR] at hr
    rcases List.mem_append.mp hr with hr | hr
    · obtain ⟨c₀, _, hq, rfl⟩ := hkept_shape r hr
      rw [applySubmission_cid cid did upd hupd]
      exact hq
    · obtain ⟨d, hd, i, hdi, rfl⟩ :=
        createdChildren_shape did mk (db.map cid) subs fresh₁ hnone r hr
      exact ⟨d, hd, by rw [hmk, hdi]⟩
  have hR0 : ∀ r ∈ R, cid r ≠ 0 := by
    intro r hr
    obtain ⟨d, hd, hdi⟩ := hRexists r hr
    obtain ⟨i, hdi', hi0⟩ := hsub d hd
    rw [hdi'] at hdi
    obtain rfl : i = cid r := by simpa using hdi
    exact hi0
  have hRmatch : ∀ d ∈ subs, ∃ i, did d = some i ∧ i ≠ 0 ∧ i ∈ R.map cid := by
    intro d hd
    obtain ⟨i, hdi, hi0⟩ := hsub d hd
    refine ⟨i, hdi, hi0, ?_⟩
    by_cases hsnap : i ∈ db.map cid
    · obtain ⟨c₀, hc₀, hcid⟩ := List.mem_map.mp hsnap
      have hc₀f : c₀ ∈ db.filter (fun c => decide (∃ d ∈ subs, did d = some (cid c))) :=
        List.mem_filter.mpr ⟨hc₀, decide_eq_true ⟨d, hd, by rw [hcid]; exact hdi⟩⟩
      have hmem : applySubmission cid did upd subs c₀ ∈ R := by
        rw [hR]
        exact List.mem_append_left _ (List.mem_map_of_mem _ hc₀f)
      exact List.mem_map.mpr
        ⟨_, hmem, by rw [applySubmission_cid cid did upd hupd]; exact hcid⟩
    · obtain ⟨x, hx, hxi⟩ := createdChildren_mem_of_unmatched cid did mk hmk
        (db.map cid) d i subs fresh₁ hd hdi (fun h => hsnap h.2)
      have hmem : x ∈ R := by
        rw [hR]
        exact List.mem_append_right _ hx
      exact List.mem_map.mpr ⟨x, hmem, hxi⟩
  have h2 := handle_nested_update_eq cid did upd mk hupd hmk fresh₂ R subs hR0 hf₂
  have hcre2 : createdChildren did mk (R.map cid) fresh₂ subs = [] :=
    createdChildren_nil_of_matched did mk (R.map cid) subs hRmatch fresh₂
  rw [h2, hcre2, List.append_nil]
  unfold keptChildren
  have hfilter : R.filter (fun c => decide (∃ d ∈ subs, did d = some (cid c))) = R := by
    apply List.filter_eq_self.mpr
    intro r hr
    exact decide_eq_true (hRexists r hr)
  rw [hfilter]
  have hfix : ∀ r ∈ R, applySubmission cid did upd subs r = r := by
    intro r hr
    rw [hR] at hr
    rcases List.mem_append.mp hr with hr | hr
    · obtain ⟨c₀, _, _, rfl⟩ := hkept_shape r hr
      exact applySubmission_idem cid did upd hupd hover subs c₀
    · obtain ⟨d, hd, i, hdi, rfl⟩ :=
        createdChildren_shape did mk (db.map cid) subs fresh₁ hnone r hr
      have hlm : lastMatch did (cid (mk i d)) subs = some d := by
        rw [hmk]
        exact lastMatch_of_nodup did i d subs hnd hd hdi
      rw [applySubmission_of_lastMatch_some cid did upd hupd hover subs (mk i d) d hlm,
        hmkupd]
  calc R.map (applySubmission cid did upd subs)
      = R.map id := List.map_congr_left hfix
    _ = R := List.map_id R

theorem handle_nested_update_roundtrip (toData : C → D)
    (hupd : ∀ d c, cid (upd d c) = cid c)
    (hmk : ∀ i d, cid (mk i d) = i)
    (hover : ∀ (d d' : D) (c : C), upd d (upd d' c) = upd d c)
    (hdid : ∀ c, did (toData c) = some (cid c))
    (hfix : ∀ c, upd (toData c) c = c)
    (fresh : Nat) (db : List C)
    (h0 : ∀ c ∈ db, cid c ≠ 0) (hnd : (db.map cid).Nodup)
    (hf : ∀ c ∈ db, cid c < fresh) :
    handle_nested_update cid did upd mk fresh db (db.map toData) = db := by
  have heq := handle_nested_update_eq cid did upd mk hupd hmk fresh db (db.map toData) h0 hf
  have hmatched : ∀ d ∈ db.map toData, ∃ i, did d = some i ∧ i ≠ 0 ∧ i ∈ db.map cid := by
    intro d hd
    obtain ⟨c, hc, rfl⟩ := List.mem_map.mp hd
    exact ⟨cid c, hdid c, h0 c hc, List.mem_map_of_mem cid hc⟩
  have hcre : createdChildren did mk (db.map cid) fresh (db.map toData) = [] :=
    createdChildren_nil_of_matched did mk (db.map cid) (db.map toData) hmatched fresh
  rw [heq, hcre, List.append_nil]
  unfold keptChildren
  have hfilter :
      db.filter (fun c => decide (∃ d ∈ db.map toData, did d = some (cid c))) = db := by
    apply List.filter_eq_self.mpr
    intro c hc
    exact decide_eq_true ⟨toData c, List.mem_map_of_mem toData hc, hdid c⟩
  rw [hfilter]
  have hndsub : ((db.map toData).filterMap did).Nodup := by
    rw [List.filterMap_map,
      show did ∘ toData = some ∘ cid from funext fun c => hdid c,
      List.filterMap_eq_map]
    exact hnd
  have happly : ∀ c ∈ db, applySubmission cid did upd (db.map toData) c = c := by
    intro c hc
    have hlm : lastMatch did (cid c) (db.map toData) = some (toData c) :=
      lastMatch_of_nodup did (cid c) (toData c) (db.map toData) hndsub
        (List.mem_map_of_mem toData hc) (hdid c)
    rw [applySubmission_of_lastMatch_some cid did upd hupd hover (db.map toData) c
      (toData c) hlm, hfix]
  calc db.map (applySubmission cid did upd (db.map toData))
      = db.map id := List.map_congr_left happly
    _ = db := List.map_id db

end ReconcilerLemmas

/-- Submission record echoing the exact current state of one persisted
image, identifier included (for the round-trip claim). -/
def imageToData (c : ProductImage) : ImageData :=
  { id := some c.id, image := c.image }

/-- Spec-side transition table of the order lifecycle, written out from the
spec's own enumeration: pending → {confirmed, cancelled};
confirmed → {shipped, cancelled}; shipped → {delivered}; delivered,
cancelled and paid admit no outgoing transition. -/
def specAllowedTransition (s t : OrderStatus) : Prop :=
  (s = pending ∧ (t = confirmed ∨ t = cancelled)) ∨
  (s = confirmed ∧ (t = shipped ∨ t = cancelled)) ∨
  (s = shipped ∧ t = delivered)

instance (s t : OrderStatus) : Decidable (specAllowedTransition s t) := by
  unfold specAllowedTransition
  infer_instance

/-- Total of a list of line items all priced in whole cents is itself a
whole number of cents: decimal sums cannot drift. -/
theorem items_total_cents (l : List OrderItem)
    (h : ∀ it ∈ l, ∃ n : ℤ, it.price = (n : ℚ) / 100) :
    ∃ m : ℤ, (l.map OrderItem.get_total_price).sum = (m : ℚ) / 100 := by
  induction l with
  | nil => exact ⟨0, by simp⟩
  | cons it rest ih =>
      obtain ⟨n, hn⟩ := h it (List.mem_cons_self _ _)
      obtain ⟨m, hm⟩ := ih (fun x hx => h x (List.mem_cons_of_mem _ hx))
      refine ⟨it.quantity * n + m, ?_⟩
      rw [List.map_cons, List.sum_cons, hm, OrderItem.get_total_price, hn]
      push_cast
      ring

instance {ε α : Type} [DecidableEq ε] [DecidableEq α] : DecidableEq (Except ε α) := fun x y =>
  match x, y with
  | .error e, .error e' =>
      if h : e = e' then isTrue (by rw [h]) else
        isFalse (by intro hc; injection hc; contradiction)
  | .error _, .ok _ => isFalse Except.noConfusion
  | .ok _, .error _ => isFalse Except.noConfusion
  | .ok a, .ok b =>
      if h : a = b then isTrue (by rw [h]) else
        isFalse (by intro hc; injection hc; contradiction)

/-! ## Claim theorems -/

/-- C1: for a persisted order with stored status `s`, saving with requested
status `t` succeeds exactly when `t = s` (no-op) or `t` is in the spec
table's allowed-set for `s`; in every other case the save raises a
`ValidationError` identifying the attempted `s → t` pair and the persisted
status stays `s`. -/
theorem C1_status_transition_enforcement :
    ∀ s t : OrderStatus,
      (Order.save (some s) t = Except.ok t ↔ (t = s ∨ specAllowedTransition s t)) ∧
      (¬(t = s ∨ specAllowedTransition s t) →
        Order.save (some s) t = Except.error (s, t) ∧ Order.statusAfterSave s t = s) := by
  decide

/-- Closed instance of C1: `pending → shipped` is rejected with the pair in
the error and the stored status still `pending`. -/
theorem C1_status_transition_enforcement_witness :
    Order.save (some pending) shipped = Except.error (pending, shipped) ∧
      Order.statusAfterSave pending shipped = pending :=
  (C1_status_transition_enforcement pending shipped).2 (by decide)

/-- C9: on initial creation (no primary key) the transition check is
skipped and every one of the six statuses is accepted as initial status;
the exemption does not extend to persisted orders: for them every invalid
transition is still rejected. -/
theorem C9_no_pk_bootstrap_exemption :
    (∀ t : OrderStatus, Order.save none t = Except.ok t) ∧
    (∀ s t : OrderStatus, ¬(t = s ∨ specAllowedTransition s t) →
      Order.save (some s) t ≠ Except.ok t) := by
  decide

/-- Closed instance of C9: `delivered` is accepted as an initial status but
rejected as a transition from `pending` on a persisted order. -/
theorem C9_no_pk_bootstrap_exemption_witness :
    Order.save none delivered = Except.ok delivered ∧
      Order.save (some pending) delivered ≠ Except.ok delivered :=
  ⟨C9_no_pk_bootstrap_exemption.1 delivered,
   C9_no_pk_bootstrap_exemption.2 pending delivered (by decide)⟩

/-- C5: `recalculate_total` reads the order's line items, stores the sum of
quantity × price as the order's total, returns that sum, leaves the items
untouched, is idempotent (a second call with the unchanged items returns
the same total), and the total is exact: whole-cent prices with integer
quantities sum to a whole-cent total, with no rounding drift. -/
theorem C5_recalculate_total_contract (o : OrderState) :
    (Order.calculate_total o).2 =
        (o.items.map (fun it => (it.quantity : ℚ) * it.price)).sum ∧
    (Order.calculate_total o).1.total_price = (Order.calculate_total o).2 ∧
    (Order.calculate_total o).1.items = o.items ∧
    (Order.calculate_total ((Order.calculate_total o).1)).2 =
        (Order.calculate_total o).2 ∧
    ((∀ it ∈ o.items, ∃ n : ℤ, it.price = (n : ℚ) / 100) →
      ∃ m : ℤ, (Order.calculate_total o).2 = (m : ℚ) / 100) := by
  refine ⟨rfl, rfl, rfl, rfl, ?_⟩
  intro h
  exact items_total_cents o.items h

/-- Closed instance of C5 at a two-item order: the persisted and returned
total is `2 × 10.50 + 3 × 0.01 = 21.03`, a whole number of cents. -/
theorem C5_recalculate_total_contract_witness :
    (Order.calculate_total
        ⟨pending, 0, [⟨2, (21 : ℚ) / 2⟩, ⟨3, (1 : ℚ) / 100⟩]⟩).2 = (2103 : ℚ) / 100 ∧
    (∃ m : ℤ, (Order.calculate_total
        ⟨pending, 0, [⟨2, (21 : ℚ) / 2⟩, ⟨3, (1 : ℚ) / 100⟩]⟩).2 = (m : ℚ) / 100) := by
  constructor
  · norm_num [Order.calculate_total, OrderItem.get_total_price]
  · refine (C5_recalculate_total_contract
      ⟨pending, 0, [⟨2, (21 : ℚ) / 2⟩, ⟨3, (1 : ℚ) / 100⟩]⟩).2.2.2.2 ?_
    intro it hit
    rcases List.mem_cons.mp hit with rfl | hit
    · exact ⟨1050, by norm_num⟩
    · obtain rfl : it = ⟨3, (1 : ℚ) / 100⟩ := by simpa using hit
      exact ⟨1, by norm_num⟩

/-- C2 is a code bug: `OrderSerializer.create` persists the order with the
model default `total_price = 0.00` and never runs `calculate_total`, so
after creating an order with one line item of quantity 2 at unit price 5
the persisted total is `0`, not the item sum `10`.  (The admin path calls
`obj.calculate_total()` — comment: "Ensure total_price is recalculated" —
the API serializer does not.) -/
theorem C2_create_leaves_total_stale :
    (OrderSerializer.create [(2, (5 : ℚ))]).total_price = 0 ∧
    ((OrderSerializer.create [(2, (5 : ℚ))]).items.map OrderItem.get_total_price).sum
        = 10 ∧
    (OrderSerializer.create [(2, (5 : ℚ))]).total_price ≠
      ((OrderSerializer.create [(2, (5 : ℚ))]).items.map OrderItem.get_total_price).sum := by
  refine ⟨rfl, ?_, ?_⟩
  · norm_num [OrderSerializer.create, OrderItem.get_total_price]
  · norm_num [OrderSerializer.create, OrderItem.get_total_price]

/-- C8: `convert_price` returns the stored price unchanged when the target
equals the stored currency and when the fetched rate is the sentinel `1.0`
(degraded-mode fallback); in every other case it returns the stored price
times the fetched rate, quantized to 2 decimal places with
round-half-to-even (the zero-price short cut returns the same value, since
`0 × rate` rounds to `0`). -/
theorem C8_convert_price_cases (price : ℚ) (currency target : Currency)
    (fetchRate : Currency → ℚ) :
    (currency = target → Product.convert_price price currency fetchRate target = price) ∧
    (fetchRate target = 1 → Product.convert_price price currency fetchRate target = price) ∧
    (currency ≠ target → fetchRate target ≠ 1 →
      Product.convert_price price currency fetchRate target =
        roundHalfEven2 (price * fetchRate target)) := by
  refine ⟨?_, ?_, ?_⟩
  · intro h
    simp [Product.convert_price, h]
  · intro h
    unfold Product.convert_price
    by_cases hct : currency = target ∨ price = 0
    · rw [if_pos hct]
    · rw [if_neg hct]
      simp [h]
  · intro hct hr
    unfold Product.convert_price
    by_cases hp : price = 0
    · rw [if_pos (Or.inr hp), hp]
      norm_num [roundHalfEven2, roundHalfEvenInt]
    · rw [if_neg (by tauto)]
      simp [hr]

/-- Closed instance of C8: converting a price of `1` at rate `1/8` gives
`0.125 → 0.12` (the tie rounds to the even cent), and a same-currency call
returns the price unchanged. -/
theorem C8_convert_price_cases_witness :
    Product.convert_price (1 : ℚ) Currency.ETB (fun _ => 1/8) Currency.USD = 12/100 ∧
    Product.convert_price (1 : ℚ) Currency.ETB (fun _ => 1/8) Currency.ETB = 1 := by
  constructor
  · rw [(C8_convert_price_cases 1 Currency.ETB Currency.USD (fun _ => 1/8)).2.2
      (by decide) (by norm_num)]
    norm_num [roundHalfEven2, roundHalfEvenInt]
  · exact (C8_convert_price_cases 1 Currency.ETB Currency.ETB (fun _ => 1/8)).1 rfl

/-- C10: when the stored price is zero (falsy in the source guard),
`convert_price` returns it unchanged for every target currency and the
result does not depend on the rate source at all — the same holds for a
same-currency call, so the rate is consulted only when the currencies
differ and the price is non-zero. -/
theorem C10_zero_price_skips_rate_fetch (price : ℚ) (currency target : Currency)
    (f g : Currency → ℚ) :
    (price = 0 →
      Product.convert_price price currency f target = price ∧
      Product.convert_price price currency f target =
        Product.convert_price price currency g target) ∧
    (currency = target →
      Product.convert_price price currency f target =
        Product.convert_price price currency g target) := by
  constructor
  · rintro rfl
    constructor <;> simp [Product.convert_price]
  · intro h
    simp [Product.convert_price, h]

/-- Closed instance of C10: a zero price converts to itself whatever the
rate source answers. -/
theorem C10_zero_price_skips_rate_fetch_witness :
    Product.convert_price (0 : ℚ) Currency.ETB (fun _ => 55) Currency.USD = 0 ∧
    Product.convert_price (0 : ℚ) Currency.ETB (fun _ => 55) Currency.USD =
      Product.convert_price (0 : ℚ) Currency.ETB (fun _ => 999) Currency.USD :=
  ⟨((C10_zero_price_skips_rate_fetch 0 Currency.ETB Currency.USD
      (fun _ => 55) (fun _ => 999)).1 rfl).1,
   ((C10_zero_price_skips_rate_fetch 0 Currency.ETB Currency.USD
      (fun _ => 55) (fun _ => 999)).1 rfl).2⟩

theorem handle_images_nil (now fresh : Nat) (db : List ProductImage) :
    handle_nested_update_images now fresh db [] = [] :=
  handle_nested_update_nil_subs ProductImage.id ImageData.id updImage (mkImage now) fresh db

theorem handle_variants_nil (db : List ProductVariant) :
    handle_nested_update_variants db [] = Except.ok [] := by
  unfold handle_nested_update_variants variantLoop
  dsimp only
  congr 1
  apply List.filter_eq_nil_iff.mpr
  intro c hc
  simp [List.mem_map_of_mem ProductVariant.id hc]

/-- C3: the image half of the reconciler does satisfy the claimed
sync-by-identifier contract — retain-and-update matched rows touching only
the image reference, create a row per missing or unmatched identifier,
delete the rest (first two conjuncts, under Django's key hypotheses).  The
variant half cannot: `ProductVariantSerializer` names fields the
`ProductVariant` model lacks, so validating the claim's variant submission
raises `ImproperlyConfigured` (third conjunct); and the loop itself, if
reached, persists no column on a matched update — the stored row keeps its
`size`/`color`/`material` values verbatim (fourth conjunct) — and raises
`TypeError` on any create (fifth conjunct). -/
theorem C3_reconciler_sync (now freshI : Nat)
    (imgs : List ProductImage) (isubs : List ImageData)
    (hi0 : ∀ c ∈ imgs, c.id ≠ 0) (hif : ∀ c ∈ imgs, c.id < freshI) :
    (handle_nested_update_images now freshI imgs isubs =
      keptChildren ProductImage.id ImageData.id updImage imgs isubs ++
        createdChildren ImageData.id (mkImage now) (imgs.map ProductImage.id)
          freshI isubs) ∧
    (∀ (d : ImageData) (c : ProductImage),
      (updImage d c).id = c.id ∧ (updImage d c).uploaded_at = c.uploaded_at ∧
      (updImage d c).image = d.image) ∧
    ProductSerializer.run_validation none (some [⟨some 1, "size", "M", 5⟩]) =
      Except.error SerializerError.improperlyConfigured ∧
    handle_nested_update_variants [⟨1, some "L", some "red", some "cotton"⟩]
        [⟨some 1, "size", "M", 5⟩] =
      Except.ok [⟨1, some "L", some "red", some "cotton"⟩] ∧
    handle_nested_update_variants [] [⟨none, "size", "M", 5⟩] =
      Except.error SerializerError.typeError :=
  ⟨handle_nested_update_eq ProductImage.id ImageData.id updImage (mkImage now)
      (fun _ _ => rfl) (fun _ _ => rfl) freshI imgs isubs hi0 hif,
   fun _ _ => ⟨rfl, rfl, rfl⟩,
   rfl, by decide, by decide⟩

/-- Closed instance of C3's image half — the spec's own example: from
persisted `{A(id=1), B(id=2)}` and submission `[{id=1, updated-field},
{no id, new-field}]` the result is `{A'(id=1, updated), C(id=3 fresh,
new-field)}` and `B` is deleted. -/
theorem C3_reconciler_sync_witness :
    (handle_nested_update_images 30 3
        [⟨1, "a", 10⟩, ⟨2, "b", 20⟩] [⟨some 1, "a2"⟩, ⟨none, "c"⟩] =
      keptChildren ProductImage.id ImageData.id updImage
          [⟨1, "a", 10⟩, ⟨2, "b", 20⟩] [⟨some 1, "a2"⟩, ⟨none, "c"⟩] ++
        createdChildren ImageData.id (mkImage 30)
          (([⟨1, "a", 10⟩, ⟨2, "b", 20⟩] : List ProductImage).map ProductImage.id)
          3 [⟨some 1, "a2"⟩, ⟨none, "c"⟩]) ∧
    handle_nested_update_images 30 3
        [⟨1, "a", 10⟩, ⟨2, "b", 20⟩] [⟨some 1, "a2"⟩, ⟨none, "c"⟩] =
      [⟨1, "a2", 10⟩, ⟨3, "c", 30⟩] := by
  constructor
  · exact (C3_reconciler_sync 30 3 [⟨1, "a", 10⟩, ⟨2, "b", 20⟩]
      [⟨some 1, "a2"⟩, ⟨none, "c"⟩] (by decide) (by decide)).1
  · decide

/-- C4 counterexample, on an executable input: a PATCH whose payload
carries the images field (echoing the product's one image) and omits the
variants field entirely validates and succeeds — and deletes the product's
variant collection, which the claim says is left untouched. -/
theorem C4_counterexample_absent_variants_deleted :
    ProductSerializer.partial_update 0 10 (some [⟨some 1, "a"⟩]) none
        ⟨[⟨1, "a", 0⟩], [⟨1, some "L", none, none⟩]⟩ =
      Except.ok ⟨[⟨1, "a", 0⟩], []⟩ ∧
    ([] : List ProductVariant) ≠ [⟨1, some "L", none, none⟩] :=
  ⟨by decide, by decide⟩

/-- C4 amended: a product update that omits both child-kind fields leaves
both collections untouched.  As soon as the images field is present (with
the variants field absent or an empty list), the image collection is
reconciled against it and the variant collection is deleted in full — the
absent kind is treated as an empty submission.  A payload whose only child
field is an empty variants list validates and deletes both collections
(the images half runs with an empty submission).  A non-empty variants
list never reaches the reconciler: validation raises
`ImproperlyConfigured` and nothing is persisted. -/
theorem C4_amended_absent_field_dispatch (now freshI : Nat) (s : ProductChildren)
    (imgs? : Option (List ImageData)) (vars? : Option (List VariantData)) :
    (imgs? = none → vars? = none →
      ProductSerializer.partial_update now freshI imgs? vars? s = Except.ok s) ∧
    (∀ l, imgs? = some l → (vars? = none ∨ vars? = some []) →
      ProductSerializer.partial_update now freshI imgs? vars? s =
        Except.ok
          { variant_images := handle_nested_update_images now freshI s.variant_images l,
            variants := [] }) ∧
    (imgs? = none → vars? = some [] →
      ProductSerializer.partial_update now freshI imgs? vars? s =
        Except.ok { variant_images := [], variants := [] }) ∧
    (∀ d ds, vars? = some (d :: ds) →
      ProductSerializer.partial_update now freshI imgs? vars? s =
        Except.error SerializerError.improperlyConfigured) := by
  refine ⟨?_, ?_, ?_, ?_⟩
  · rintro rfl rfl
    rfl
  · rintro l rfl (rfl | rfl)
    · unfold ProductSerializer.partial_update ProductSerializer.run_validation
        ProductSerializer.update
      dsimp only [Option.getD_none]
      rw [handle_variants_nil]
    · unfold ProductSerializer.partial_update ProductSerializer.run_validation
        ProductSerializer.update
      dsimp only [Option.getD_some]
      rw [handle_variants_nil]
  · rintro rfl rfl
    unfold ProductSerializer.partial_update ProductSerializer.run_validation
      ProductSerializer.update
    dsimp only
    rw [handle_variants_nil, handle_images_nil]
  · rintro d ds rfl
    rcases imgs? with _ | l
    · rfl
    · rfl

/-- Closed instance of C4 as amended: omitting both fields is a no-op,
while a non-empty variants field fails validation with nothing changed. -/
theorem C4_amended_absent_field_dispatch_witness :
    ProductSerializer.partial_update 0 10 none none ⟨[⟨1, "a", 0⟩], []⟩ =
      Except.ok ⟨[⟨1, "a", 0⟩], []⟩ ∧
    ProductSerializer.partial_update 0 10 none (some [⟨some 1, "size", "M", 5⟩])
        ⟨[⟨1, "a", 0⟩], [⟨1, some "L", none, none⟩]⟩ =
      Except.error SerializerError.improperlyConfigured :=
  ⟨(C4_amended_absent_field_dispatch 0 10 ⟨[⟨1, "a", 0⟩], []⟩ none none).1 rfl rfl,
   (C4_amended_absent_field_dispatch 0 10 ⟨[⟨1, "a", 0⟩], [⟨1, some "L", none, none⟩]⟩
      none (some [⟨some 1, "size", "M", 5⟩])).2.2.2 ⟨some 1, "size", "M", 5⟩ [] rfl⟩

/-- C6 counterexample: a submission containing a record without an
identifier is not idempotent — the second application deletes the row the
first created (its fresh key is not retained) and creates a new row under
the next key, so the persisted set changes. -/
theorem C6_counterexample_no_id_resubmission :
    handle_nested_update_images 0 2
        (handle_nested_update_images 0 1 [] [⟨none, "x"⟩]) [⟨none, "x"⟩] ≠
      handle_nested_update_images 0 1 [] [⟨none, "x"⟩] := by
  decide

/-- C6 amended: the reconciler is idempotent for image submissions in
which every record carries a non-zero identifier, the explicit identifiers
pairwise distinct: the second application matches every record against a
persisted row, updates it to the values it already has, creates nothing
and deletes nothing.  (An image record without an identifier is re-created
under a fresh key on every application, so for such submissions the
persisted set is not preserved — the counterexample.)  Of the variant
kind, only the empty submission can be applied at all — a non-empty
`variant_data` list fails validation — and the empty submission is
trivially idempotent: both applications leave the collection empty. -/
theorem C6_amended_idempotent_with_ids
    (now freshI₁ freshI₂ : Nat)
    (imgs : List ProductImage) (isubs : List ImageData)
    (vars : List ProductVariant)
    (hi0 : ∀ c ∈ imgs, c.id ≠ 0) (hif : ∀ c ∈ imgs, c.id < freshI₁)
    (hisub : ∀ d ∈ isubs, ∃ i, d.id = some i ∧ i ≠ 0)
    (hind : (isubs.filterMap ImageData.id).Nodup)
    (hif₂ : ∀ c ∈ handle_nested_update_images now freshI₁ imgs isubs, c.id < freshI₂) :
    handle_nested_update_images now freshI₂
        (handle_nested_update_images now freshI₁ imgs isubs) isubs =
      handle_nested_update_images now freshI₁ imgs isubs ∧
    handle_nested_update_variants vars [] = Except.ok [] ∧
    handle_nested_update_variants [] [] = Except.ok [] :=
  ⟨handle_nested_update_idem ProductImage.id ImageData.id updImage (mkImage now)
      (fun _ _ => rfl) (fun _ _ => rfl) (fun _ _ _ => rfl) (fun _ _ => rfl)
      freshI₁ freshI₂ imgs isubs hi0 hif hisub hind hif₂,
   handle_variants_nil vars, handle_variants_nil []⟩

/-- Closed instance of C6 as amended: a submission updating image row 1
and creating image row 5 by explicit id is absorbed by a second
application. -/
theorem C6_amended_idempotent_with_ids_witness :
    handle_nested_update_images 0 6
        (handle_nested_update_images 0 2 [⟨1, "a", 0⟩] [⟨some 1, "b"⟩, ⟨some 5, "c"⟩])
        [⟨some 1, "b"⟩, ⟨some 5, "c"⟩] =
      handle_nested_update_images 0 2 [⟨1, "a", 0⟩] [⟨some 1, "b"⟩, ⟨some 5, "c"⟩] ∧
    handle_nested_update_images 0 2 [⟨1, "a", 0⟩] [⟨some 1, "b"⟩, ⟨some 5, "c"⟩] =
      [⟨1, "b", 0⟩, ⟨5, "c", 0⟩] := by
  constructor
  · refine (C6_amended_idempotent_with_ids 0 2 6 [⟨1, "a", 0⟩]
      [⟨some 1, "b"⟩, ⟨some 5, "c"⟩] [] (by decide) (by decide) ?_ (by decide)
      (by decide)).1
    intro d hd
    rcases List.mem_cons.mp hd with rfl | hd
    · exact ⟨1, rfl, by decide⟩
    · obtain rfl : d = ⟨some 5, "c"⟩ := by simpa using hd
      exact ⟨5, rfl, by decide⟩
  · decide

/-- C7: echoing the exact current state works as claimed for the image
kind — no creates, no deletes, updates writing the values already stored
(first conjunct, under Django's key hypotheses).  A variant collection
cannot be echoed: validating any non-empty `variant_data` list raises
`ImproperlyConfigured` before the reconciler runs (second conjunct), so
the claimed successful no-op is unachievable for a product that has
variants; only the empty variant collection round-trips, trivially (third
conjunct). -/
theorem C7_roundtrip_unchanged (now freshI : Nat) (imgs : List ProductImage)
    (hi0 : ∀ c ∈ imgs, c.id ≠ 0) (hind : (imgs.map ProductImage.id).Nodup)
    (hif : ∀ c ∈ imgs, c.id < freshI) :
    handle_nested_update_images now freshI imgs (imgs.map imageToData) = imgs ∧
    (∀ (d : VariantData) (ds : List VariantData),
      ProductSerializer.run_validation none (some (d :: ds)) =
        Except.error SerializerError.improperlyConfigured) ∧
    handle_nested_update_variants [] [] = Except.ok [] :=
  ⟨handle_nested_update_roundtrip ProductImage.id ImageData.id updImage (mkImage now)
      imageToData (fun _ _ => rfl) (fun _ _ => rfl) (fun _ _ _ => rfl)
      (fun _ => rfl) (fun _ => rfl) freshI imgs hi0 hind hif,
   fun _ _ => rfl,
   handle_variants_nil []⟩

/-- Closed instance of C7's image half: echoing two persisted images back,
ids included, changes nothing. -/
theorem C7_roundtrip_unchanged_witness :
    handle_nested_update_images 9 3 [⟨1, "a", 5⟩, ⟨2, "b", 7⟩]
        (([⟨1, "a", 5⟩, ⟨2, "b", 7⟩] : List ProductImage).map imageToData) =
      [⟨1, "a", 5⟩, ⟨2, "b", 7⟩] :=
  (C7_roundtrip_unchanged 9 3 [⟨1, "a", 5⟩, ⟨2, "b", 7⟩]
    (by decide) (by decide) (by decide)).1
